import Mathlib

/-!
Verification of the QRasterMerge cutline and color-space components.

The definitions below are a shallow embedding of the Python sources:
  - qraster_merge/cutline.py (compute_cutline and its inner compute_linestrings)
  - qraster_merge/rio_hist/utils.py (color-space conversion dispatch and LAB→LCH)

Machine floats of the Python code are modelled over exact arithmetic
(ℕ/ℤ/ℚ for integral quantities, ℝ for the transcendental color math);
numpy arrays of costs are modelled as functions ℕ → ℕ → ℕ; external
geometry routines (shapely polygonize/unary_union/contains, connected
components) are abstract parameters, with their geometric contracts as
explicit hypotheses where a theorem needs them.
-/

namespace QRasterMerge

/-! ## cutline.py: grid layout (lines 75-77)

number_lines = int(max(8, math.ceil(min(width, height) / 256.0)))
line_hor_offset = int(width / number_lines)
line_ver_offset = int(height / number_lines)
-/

/-- Embedding of number_lines: max(8, ceil(min(width, height) / 256)). -/
def numberLines (w h : ℕ) : ℕ := max 8 ((min w h + 255) / 256)

/-- Embedding of line_hor_offset = int(width / number_lines). -/
def lineHorOffset (w h : ℕ) : ℕ := w / numberLines w h

/-- Embedding of line_ver_offset = int(height / number_lines). -/
def lineVerOffset (w h : ℕ) : ℕ := h / numberLines w h

/-- Python range(start, stop, step) for a positive step: the list of
start + i*step for i < ceil((stop - start) / step). -/
def pyRange (start stop step : ℕ) : List ℕ :=
  (List.range ((stop - start + step - 1) / step)).map (fun i => start + i * step)

/-- The candidate base-line positions of one orientation
(cutline.py lines 108 and 117): range(offset, dim - offset, offset). -/
def linePositions (dim off : ℕ) : List ℕ := pyRange off (dim - off) off

/-- Columns of the vertical candidate lines (cutline.py line 108). -/
def vCols (w h : ℕ) : List ℕ := linePositions w (lineHorOffset w h)

/-- Rows of the horizontal candidate lines (cutline.py line 117). -/
def hRows (w h : ℕ) : List ℕ := linePositions h (lineVerOffset w h)

/-! ## cutline.py: the cost map of one compute_linestrings call (lines 98-128)

Each call of compute_linestrings(direction) allocates its own cost map:
  cost_map = np.full((height, width), 1, dtype=np.float32)
  cost_map[edges==True] = 0
then rasterizes the base lines of that one direction at cost 9999
(cost_map[cc, rr] = 9999 writes, for a vertical line at column c, the
cells (c, y) for y in [0, height-1], and for a horizontal line at row r
the cells (x, r) for x in [0, width-1]).  Cells are addressed as (x, y);
costs are the integral values 0, 1, 9999 the code stores. -/

/-- The cost map right after initialization from the edge mask
(cutline.py lines 101-104). -/
def initCost (edges : ℕ → ℕ → Bool) (x y : ℕ) : ℕ :=
  if edges x y then 0 else 1

/-- Rasterize one vertical barrier line at column c: cells (c, y), y < h. -/
def writeVLine (c h : ℕ) (m : ℕ → ℕ → ℕ) : ℕ → ℕ → ℕ :=
  fun x y => if x = c ∧ y < h then 9999 else m x y

/-- Rasterize one horizontal barrier line at row r: cells (x, r), x < w. -/
def writeHLine (r w : ℕ) (m : ℕ → ℕ → ℕ) : ℕ → ℕ → ℕ :=
  fun x y => if y = r ∧ x < w then 9999 else m x y

/-- The cost map used by the vertical routing phase: a fresh grid with the
edge costs, then every vertical barrier line written (lines 101-128 with
direction = vertical). -/
def costMapVertical (w h : ℕ) (edges : ℕ → ℕ → Bool) : ℕ → ℕ → ℕ :=
  (vCols w h).foldl (fun m c => writeVLine c h m) (initCost edges)

/-- The cost map used by the horizontal routing phase: again a fresh grid
with the edge costs, then every horizontal barrier line written
(lines 101-128 with direction = horizontal). -/
def costMapHorizontal (w h : ℕ) (edges : ℕ → ℕ → Bool) : ℕ → ℕ → ℕ :=
  (hRows w h).foldl (fun m r => writeHLine r w m) (initCost edges)

/-- The uniform edge mask of a constant raster: canny detects nothing. -/
def noEdges : ℕ → ℕ → Bool := fun _ _ => false

/-! ## cutline.py: the padded routing endpoints (lines 107-124)

Coordinates are ℤ (Python ints), so the shifts a[0] - pad_x etc. are
exact.  In each orientation the code shifts every base line by -pad
and additionally appends lines[-1] shifted by +pad; the code indexes
lines[-1] unconditionally, which presupposes a nonempty line list (true
whenever the size guard passed); the embedding uses getLast? and yields
no extra pair on an empty list. -/

/-- pad_x = int(line_hor_offset / 2.0) (cutline.py line 110). -/
def padX (w h : ℕ) : ℕ := lineHorOffset w h / 2

/-- pad_y = int(line_ver_offset / 2.0) (cutline.py line 119). -/
def padY (w h : ℕ) : ℕ := lineVerOffset w h / 2

/-- The endpoint pairs routed in the vertical phase
(cutline.py lines 107-115): each base column c gives
((c - pad_x, 0), (c - pad_x, h-1)), and the last column additionally
gives ((c + pad_x, 0), (c + pad_x, h-1)). -/
def verticalPoints (w h : ℕ) : List ((ℤ × ℤ) × (ℤ × ℤ)) :=
  (vCols w h).map
      (fun (c : ℕ) => (((c : ℤ) - (padX w h : ℤ), 0),
                 ((c : ℤ) - (padX w h : ℤ), (h : ℤ) - 1)))
    ++ ((vCols w h).getLast?).toList.map
      (fun (c : ℕ) => (((c : ℤ) + (padX w h : ℤ), 0),
                 ((c : ℤ) + (padX w h : ℤ), (h : ℤ) - 1)))

/-- The endpoint pairs routed in the horizontal phase
(cutline.py lines 116-124): each base row r gives
((0, r - pad_y), (w-1, r - pad_y)), and the last row additionally
gives ((0, r + pad_y), (w-1, r + pad_y)). -/
def horizontalPoints (w h : ℕ) : List ((ℤ × ℤ) × (ℤ × ℤ)) :=
  (hRows w h).map
      (fun (r : ℕ) => ((0, (r : ℤ) - (padY w h : ℤ)),
                 ((w : ℤ) - 1, (r : ℤ) - (padY w h : ℤ))))
    ++ ((hRows w h).getLast?).toList.map
      (fun (r : ℕ) => ((0, (r : ℤ) + (padY w h : ℤ)),
                 ((w : ℤ) - 1, (r : ℤ) + (padY w h : ℤ))))

/-! ## cutline.py: compute_cutline control flow (lines 74-174)

The geometric routines the code calls (shapely polygonize of the unioned
linestrings, crop_poly.contains, unary_union, its connected components,
polygon area) are external library calls; they enter the model as
parameters: regions is the polygonize output, containsB the boolean
containment test, componentsOf the decomposition of the union of a list
of polygons into connected components, area the polygon area.  The
result is the selected cutline polygon or the warning message of the
early exit that produced no cutline. -/

/-- Warning of cutline.py line 80 (the code also formats the dimensions
into the message). -/
def tooSmallMsg : String := "Cannot compute cutline, orthophoto is too small"

/-- Warning of cutline.py line 157. -/
def noPolygonsMsg : String := "No polygons, cannot compute cutline"

/-- Marker for the state cutline.py lines 163-172 cannot reach: the union
of a nonempty polygon list always has at least one component. -/
def emptyUnionMsg : String := "union of polygons has no components"

/-- The polygons kept after the crop filter (cutline.py lines 147-153):
with a crop polygon only regions it fully contains survive, without one
every region survives. -/
def retainedPolygons {P : Type} (crop : Option P) (containsB : P → P → Bool)
    (regions : List P) : List P :=
  match crop with
  | some cp => regions.filter (fun p => containsB cp p)
  | none => regions

/-- The selection loop of cutline.py lines 163-172: start from the first
component and replace it whenever a strictly larger area is seen. -/
def selectLargest {P : Type} (area : P → ℚ) (c : P) (cs : List P) : P :=
  cs.foldl (fun best p => if area best < area p then p else best) c

/-- Embedding of compute_cutline after the raster is read (cutline.py
lines 74-174): the size guard, the crop filter, the no-polygons exit and
the largest-component selection. -/
def computeCutline {P : Type} (w h : ℕ) (crop : Option P)
    (containsB : P → P → Bool) (area : P → ℚ)
    (componentsOf : List P → List P) (regions : List P) : Except String P :=
  if lineHorOffset w h ≤ 2 ∨ lineVerOffset w h ≤ 2 then
    .error tooSmallMsg
  else
    let polygons := retainedPolygons crop containsB regions
    if polygons.isEmpty then .error noPolygonsMsg
    else
      match componentsOf polygons with
      | [] => .error emptyUnionMsg
      | c :: cs => .ok (selectLargest area c cs)

/-! ## rio_hist/utils.py: convert_arr dispatch (lines 216-250)

The dispatch lowercases both names, returns arr.copy() when they agree,
composes the rgb→lch or lch→rgb chain, and raises ValueError otherwise.
The two numeric chains are parameters (they operate on float arrays; the
dispatch itself never inspects the data), and the result records whether
the returned numpy object is a fresh allocation — arr.copy() and every
arithmetic chain allocate a new array — or the input object itself. -/

/-- A numpy array result together with its aliasing relation to the
input: newObject is a freshly allocated array, sameObject would be the
input object returned as-is. -/
inductive ConvOut (D : Type) where
  | newObject (data : D)
  | sameObject (data : D)
deriving DecidableEq

/-- Python str.lower() on the names (ASCII names in practice), written
over the character list so that it evaluates in the kernel. -/
def pyLower (s : String) : String := String.mk (s.data.map Char.toLower)

/-- Embedding of convert_arr (rio_hist/utils.py lines 216-250). -/
def convert_arr {D : Type} (rgbToLch lchToRgb : D → D) (arr : D)
    (src dst : String) : Except String (ConvOut D) :=
  let s := pyLower src
  let d := pyLower dst
  if s = d then .ok (.newObject arr)
  else if s = "rgb" ∧ d = "lch" then .ok (.newObject (rgbToLch arr))
  else if s = "lch" ∧ d = "rgb" then .ok (.newObject (lchToRgb arr))
  else .error ("Unsupported color space conversion: " ++ s ++ " to " ++ d)

/-! ## rio_hist/utils.py: lab_to_lch (lines 86-109)

The float64 arithmetic is modelled over ℝ; np.arctan2(b, a) is the
argument of the complex number a + b·i, which lies in (-π, π]. -/

/-- np.arctan2(y, x) over ℝ: the argument of x + y·i. -/
noncomputable def arctan2 (y x : ℝ) : ℝ := Complex.arg ⟨x, y⟩

/-- np.degrees: radians to degrees. -/
noncomputable def degrees (r : ℝ) : ℝ := r * (180 / Real.pi)

/-- Embedding of lab_to_lch on one pixel (rio_hist/utils.py lines
86-109): C = sqrt(a² + b²), H = degrees(arctan2(b, a)) shifted by +360
where negative. -/
noncomputable def lab_to_lch (L a b : ℝ) : ℝ × ℝ × ℝ :=
  let C := Real.sqrt (a ^ 2 + b ^ 2)
  let Hdeg := degrees (arctan2 b a)
  (L, C, if Hdeg < 0 then Hdeg + 360 else Hdeg)

/-! ## Helper lemmas -/

lemma linePositions_eq (dim off : ℕ) (hoff : 0 < off) :
    linePositions dim off
      = (List.range ((dim - off - 1) / off)).map (fun i => (i + 1) * off) := by
  unfold linePositions pyRange
  have hcount : (dim - off - off + off - 1) / off = (dim - off - 1) / off := by
    rcases le_or_lt (2 * off) dim with hle | hlt
    · have : dim - off - off + off - 1 = dim - off - 1 := by omega
      rw [this]
    · have h1 : dim - off - off + off - 1 < off := by omega
      have h2 : dim - off - 1 < off := by omega
      rw [Nat.div_eq_of_lt h1, Nat.div_eq_of_lt h2]
  rw [hcount]
  apply List.map_congr_left
  intro i _
  ring

lemma length_linePositions (dim off : ℕ) (hoff : 0 < off) :
    (linePositions dim off).length = (dim - off - 1) / off := by
  rw [linePositions_eq dim off hoff]
  simp

lemma mem_linePositions {dim off c : ℕ} (hoff : 0 < off)
    (hc : c ∈ linePositions dim off) :
    off ∣ c ∧ off ≤ c ∧ c + off < dim := by
  rw [linePositions_eq dim off hoff] at hc
  simp only [List.mem_map, List.mem_range] at hc
  obtain ⟨i, hi, hci⟩ := hc
  have hmul : (i + 1) * off ≤ dim - off - 1 :=
    (Nat.le_div_iff_mul_le hoff).mp hi
  subst hci
  refine ⟨⟨i + 1, by ring⟩, ?_, ?_⟩
  · calc off = 1 * off := (one_mul off).symm
    _ ≤ (i + 1) * off := Nat.mul_le_mul_right off (by omega)
  · have hoo : 1 * off ≤ (i + 1) * off := Nat.mul_le_mul_right off (by omega)
    omega

lemma foldl_writeVLine (h : ℕ) (cols : List ℕ) (m : ℕ → ℕ → ℕ) (x y : ℕ) :
    (cols.foldl (fun m c => writeVLine c h m) m) x y
      = if x ∈ cols ∧ y < h then 9999 else m x y := by
  induction cols generalizing m with
  | nil => simp
  | cons c cs ih =>
    rw [List.foldl_cons, ih]
    unfold writeVLine
    by_cases hx : x ∈ cs ∧ y < h
    · simp [hx]
    · by_cases hc : x = c ∧ y < h
      · simp [hx, hc, hc.1, hc.2]
      · have hnot : ¬((x = c ∨ x ∈ cs) ∧ y < h) := by tauto
        simp [hx, hc, hnot]

lemma foldl_writeHLine (w : ℕ) (rows : List ℕ) (m : ℕ → ℕ → ℕ) (x y : ℕ) :
    (rows.foldl (fun m r => writeHLine r w m) m) x y
      = if y ∈ rows ∧ x < w then 9999 else m x y := by
  induction rows generalizing m with
  | nil => simp
  | cons r rs ih =>
    rw [List.foldl_cons, ih]
    unfold writeHLine
    by_cases hy : y ∈ rs ∧ x < w
    · simp [hy]
    · by_cases hr : y = r ∧ x < w
      · simp [hy, hr, hr.1, hr.2]
      · have hnot : ¬((y = r ∨ y ∈ rs) ∧ x < w) := by tauto
        simp [hy, hr, hnot]

lemma selectLargest_mem {P : Type} (area : P → ℚ) (c : P) (cs : List P) :
    selectLargest area c cs ∈ c :: cs := by
  induction cs generalizing c with
  | nil => simp [selectLargest]
  | cons p ps ih =>
    unfold selectLargest at ih ⊢
    rw [List.foldl_cons]
    by_cases hp : area c < area p
    · simp only [if_pos hp]
      rcases List.mem_cons.mp (ih p) with h1 | h1
      · simp [h1]
      · simp [List.mem_cons.mpr (Or.inr (List.mem_cons.mpr (Or.inr h1)))]
    · simp only [if_neg hp]
      rcases List.mem_cons.mp (ih c) with h1 | h1
      · simp [h1]
      · simp [List.mem_cons.mpr (Or.inr (List.mem_cons.mpr (Or.inr h1)))]

lemma selectLargest_ge {P : Type} (area : P → ℚ) (c : P) (cs : List P) :
    ∀ p ∈ c :: cs, area p ≤ area (selectLargest area c cs) := by
  induction cs generalizing c with
  | nil => simp [selectLargest]
  | cons q qs ih =>
    intro p hp
    unfold selectLargest at ih ⊢
    rw [List.foldl_cons]
    by_cases hq : area c < area q
    · rw [if_pos hq]
      rcases List.mem_cons.mp hp with h1 | h1
      · calc area p = area c := by rw [h1]
          _ ≤ area q := le_of_lt hq
          _ ≤ _ := ih q q (List.mem_cons_self q qs)
      · exact ih q p h1
    · rw [if_neg hq]
      rcases List.mem_cons.mp hp with h1 | h1
      · exact ih c p (List.mem_cons.mpr (Or.inl h1))
      · rcases List.mem_cons.mp h1 with h2 | h2
        · calc area p = area q := by rw [h2]
            _ ≤ area c := le_of_not_lt hq
            _ ≤ _ := ih c c (List.mem_cons_self c qs)
        · exact ih c p (List.mem_cons.mpr (Or.inr h2))

lemma not_dvd_shift {off c pad : ℕ} (hpad1 : 0 < pad) (hpad2 : pad < off)
    (hdvd : off ∣ c) :
    ((c : ℤ) - (pad : ℤ)) % (off : ℤ) ≠ 0
      ∧ ((c : ℤ) + (pad : ℤ)) % (off : ℤ) ≠ 0 := by
  have hdvdc : (off : ℤ) ∣ (c : ℤ) := Int.natCast_dvd_natCast.mpr hdvd
  constructor
  · intro h0
    have h1 : (off : ℤ) ∣ ((c : ℤ) - (pad : ℤ)) := Int.dvd_of_emod_eq_zero h0
    have h2 : (off : ℤ) ∣ (pad : ℤ) := by
      have h3 := dvd_sub hdvdc h1
      simpa using h3
    have h4 := Nat.le_of_dvd hpad1 (Int.natCast_dvd_natCast.mp h2)
    omega
  · intro h0
    have h1 : (off : ℤ) ∣ ((c : ℤ) + (pad : ℤ)) := Int.dvd_of_emod_eq_zero h0
    have h2 : (off : ℤ) ∣ (pad : ℤ) := by
      have h3 := dvd_sub h1 hdvdc
      simpa using h3
    have h4 := Nat.le_of_dvd hpad1 (Int.natCast_dvd_natCast.mp h2)
    omega

lemma endpointX_bounds {dim off c : ℕ} (hoff : 2 < off)
    (hdvd : off ∣ c) (hle : off ≤ c) (hlt : c + off < dim) :
    (0 < (c : ℤ) - ((off / 2 : ℕ) : ℤ)
      ∧ (c : ℤ) - ((off / 2 : ℕ) : ℤ) < (dim : ℤ) - 1
      ∧ ((c : ℤ) - ((off / 2 : ℕ) : ℤ)) % (off : ℤ) ≠ 0)
    ∧ (0 < (c : ℤ) + ((off / 2 : ℕ) : ℤ)
      ∧ (c : ℤ) + ((off / 2 : ℕ) : ℤ) < (dim : ℤ) - 1
      ∧ ((c : ℤ) + ((off / 2 : ℕ) : ℤ)) % (off : ℤ) ≠ 0) := by
  have hpad1 : 0 < off / 2 := by omega
  have hpad2 : off / 2 < off := by omega
  have hmods := not_dvd_shift hpad1 hpad2 hdvd
  refine ⟨⟨?_, ?_, hmods.1⟩, ?_, ?_, hmods.2⟩ <;> omega

lemma mem_of_getLast_toList {α : Type} {l : List α} {c : α}
    (hc : c ∈ (l.getLast?).toList) : c ∈ l := by
  rw [Option.mem_toList, Option.mem_def] at hc
  exact List.mem_of_getLast?_eq_some hc

/-! ## Claim theorems -/

/-- C3: for every raster whose derived line spacing floor(W/divisions) or
floor(H/divisions) is at most 2 pixels (divisions = max(8, ceil(min(W,H)/256))),
cutline computation aborts with the too-small warning and produces no
cutline (cutline.py lines 75-81); the witness instantiates the claim's
particular case width = height = 16. -/
theorem claim_C3_too_small {P : Type} (w h : ℕ)
    (hsmall : lineHorOffset w h ≤ 2 ∨ lineVerOffset w h ≤ 2)
    (crop : Option P) (containsB : P → P → Bool) (area : P → ℚ)
    (componentsOf : List P → List P) (regions : List P) :
    computeCutline w h crop containsB area componentsOf regions
      = .error tooSmallMsg := by
  unfold computeCutline
  rw [if_pos hsmall]

theorem claim_C3_witness :
    computeCutline (P := Unit) 16 16 none (fun _ _ => true) (fun _ => 0)
        (fun l => l) [] = .error tooSmallMsg :=
  claim_C3_too_small 16 16 (by decide) none (fun _ _ => true) (fun _ => 0)
    (fun l => l) []

/-- C6: whenever compute_cutline returns a polygon, that polygon is one of
the connected components of the union of the retained regions and its
area is at least the area of every other component (cutline.py lines
160-174; the loop keeps the first component and replaces it only on a
strictly larger area). -/
theorem claim_C6_largest_component {P : Type} (w h : ℕ) (crop : Option P)
    (containsB : P → P → Bool) (area : P → ℚ)
    (componentsOf : List P → List P) (regions : List P) (m : P)
    (hok : computeCutline w h crop containsB area componentsOf regions = .ok m) :
    m ∈ componentsOf (retainedPolygons crop containsB regions)
      ∧ ∀ p ∈ componentsOf (retainedPolygons crop containsB regions),
          area p ≤ area m := by
  unfold computeCutline at hok
  by_cases hg : lineHorOffset w h ≤ 2 ∨ lineVerOffset w h ≤ 2
  · rw [if_pos hg] at hok
    simp at hok
  · rw [if_neg hg] at hok
    dsimp only at hok
    by_cases he : (retainedPolygons crop containsB regions).isEmpty
    · rw [if_pos he] at hok
      simp at hok
    · rw [if_neg he] at hok
      cases hcomp : componentsOf (retainedPolygons crop containsB regions) with
      | nil =>
        rw [hcomp] at hok
        simp at hok
      | cons c cs =>
        rw [hcomp] at hok
        have hm : selectLargest area c cs = m := by
          injection hok
        rw [← hm]
        exact ⟨selectLargest_mem area c cs, selectLargest_ge area c cs⟩

theorem claim_C6_witness :
    (2 : ℕ) ∈ (fun l => l) (retainedPolygons (P := ℕ) none (fun _ _ => true) [1, 2])
      ∧ ∀ p ∈ (fun l => l) (retainedPolygons (P := ℕ) none (fun _ _ => true) [1, 2]),
          (fun n : ℕ => (n : ℚ)) p ≤ (fun n : ℕ => (n : ℚ)) 2 :=
  claim_C6_largest_component 100 100 none (fun _ _ => true) (fun n : ℕ => (n : ℚ))
    (fun l => l) [1, 2] 2 (by rfl)

/-- C7: for every array x and every color-space name s (supported or not),
convert(x, s, s) returns an array equal to x in value but freshly
allocated, so mutating the result cannot mutate the input
(rio_hist/utils.py lines 233-237: the src == dst test follows the
lowercasing and precedes the supported-pair tests, and arr.copy()
allocates a new array with the same values). -/
theorem claim_C7_identity_copy {D : Type} (rgbToLch lchToRgb : D → D)
    (arr : D) (s : String) :
    convert_arr rgbToLch lchToRgb arr s s = .ok (.newObject arr) := by
  unfold convert_arr
  simp

/-- C8: the hue channel produced by lab_to_lch always lies in [0, 360):
arctan2 yields a value in (-π, π], so the degree value lies in
(-180, 180], and the conditional +360 shift of negative values lands in
[0, 360) (rio_hist/utils.py lines 102-107). -/
theorem claim_C8_hue_range (L a b : ℝ) :
    0 ≤ (lab_to_lch L a b).2.2 ∧ (lab_to_lch L a b).2.2 < 360 := by
  unfold lab_to_lch degrees arctan2
  have hpi : (0 : ℝ) < Real.pi := Real.pi_pos
  have hk : (0 : ℝ) < 180 / Real.pi := by positivity
  have h1 : -Real.pi < Complex.arg ⟨a, b⟩ := Complex.neg_pi_lt_arg _
  have h2 : Complex.arg ⟨a, b⟩ ≤ Real.pi := Complex.arg_le_pi _
  have heq180 : Real.pi * (180 / Real.pi) = 180 := by
    rw [mul_comm]
    exact div_mul_cancel₀ 180 (ne_of_gt hpi)
  have hub : Complex.arg ⟨a, b⟩ * (180 / Real.pi) ≤ 180 := by
    have hmul := mul_le_mul_of_nonneg_right h2 (le_of_lt hk)
    linarith
  have hlb : -180 < Complex.arg ⟨a, b⟩ * (180 / Real.pi) := by
    have hmul := mul_lt_mul_of_pos_right h1 hk
    have heqneg : -Real.pi * (180 / Real.pi) = -180 := by
      rw [neg_mul, heq180]
    linarith
  dsimp only
  split_ifs with hlt
  · constructor <;> linarith
  · push_neg at hlt
    constructor <;> linarith

/-- C9: for every pair of names whose lowercased forms differ and are
neither (rgb, lch) nor (lch, rgb), convert_arr raises the unsupported
conversion error naming the two spaces (rio_hist/utils.py lines
239-250); the witness instantiates the claim's particular case
convert(x, foo, rgb). -/
theorem claim_C9_unsupported {D : Type} (rgbToLch lchToRgb : D → D) (arr : D)
    (src dst : String)
    (hne : pyLower src ≠ pyLower dst)
    (h1 : ¬(pyLower src = "rgb" ∧ pyLower dst = "lch"))
    (h2 : ¬(pyLower src = "lch" ∧ pyLower dst = "rgb")) :
    convert_arr rgbToLch lchToRgb arr src dst
      = .error ("Unsupported color space conversion: "
          ++ pyLower src ++ " to " ++ pyLower dst) := by
  unfold convert_arr
  rw [if_neg hne, if_neg h1, if_neg h2]

theorem claim_C9_witness :
    convert_arr (D := Unit) id id () "foo" "rgb"
      = .error ("Unsupported color space conversion: "
          ++ pyLower "foo" ++ " to " ++ pyLower "rgb") :=
  claim_C9_unsupported id id () "foo" "rgb" (by decide) (by decide) (by decide)

/-- C1 (counterexample): with no detected edges on a 2048×2048 raster,
the cell (256, 1) lies on a vertical barrier line and costs 9999 in the
grid of the vertical phase, yet the freshly initialized grid the
horizontal phase routes over gives that same cell cost 1, not 9999: the
cost grid is not shared across the two phases (cutline.py line 101
re-creates cost_map inside each compute_linestrings call). -/
theorem claim_C1_counterexample :
    costMapVertical 2048 2048 noEdges 256 1 = 9999
    ∧ costMapHorizontal 2048 2048 noEdges 256 1 = 1 := by
  decide

/-- C1 (amended): the vertical phase (barriers and routing) completes
before the horizontal phase starts, but each compute_linestrings call
re-initializes the cost grid, so each phase's grid holds exactly its own
orientation's barriers over the edge costs: the closed forms of both
grids, for every raster and every cell. -/
theorem claim_C1_amended (w h : ℕ) (edges : ℕ → ℕ → Bool) (x y : ℕ) :
    costMapVertical w h edges x y
        = (if x ∈ vCols w h ∧ y < h then 9999
           else if edges x y then 0 else 1)
    ∧ costMapHorizontal w h edges x y
        = (if y ∈ hRows w h ∧ x < w then 9999
           else if edges x y then 0 else 1) := by
  constructor
  · unfold costMapVertical
    rw [foldl_writeVLine]
    rfl
  · unfold costMapHorizontal
    rw [foldl_writeHLine]
    rfl

/-- C2 (counterexample): at a 2048×2048 raster, divisions = 8 and
offset = 256, but range(offset, width - offset, offset) stops short of
width - offset = 1792, so only 6 vertical candidate lines are laid out,
not divisions - 1 = 7. -/
theorem claim_C2_counterexample :
    (vCols 2048 2048).length ≠ numberLines 2048 2048 - 1 := by
  decide

/-- C2 (amended): each orientation lays out candidate base lines at the
multiples of offset from offset up to but excluding dimension - offset,
producing floor((dimension - offset - 1) / offset) lines — a count that
can differ from divisions - 1 (it is divisions - 2 whenever divisions
divides the dimension). -/
theorem claim_C2_amended (w h : ℕ)
    (hH : 0 < lineHorOffset w h) (hV : 0 < lineVerOffset w h) :
    ((vCols w h).length = (w - lineHorOffset w h - 1) / lineHorOffset w h
      ∧ ∀ c ∈ vCols w h,
          lineHorOffset w h ∣ c ∧ lineHorOffset w h ≤ c
            ∧ c + lineHorOffset w h < w)
    ∧ ((hRows w h).length = (h - lineVerOffset w h - 1) / lineVerOffset w h
      ∧ ∀ r ∈ hRows w h,
          lineVerOffset w h ∣ r ∧ lineVerOffset w h ≤ r
            ∧ r + lineVerOffset w h < h) :=
  ⟨⟨length_linePositions w (lineHorOffset w h) hH,
      fun _ hc => mem_linePositions hH hc⟩,
   ⟨length_linePositions h (lineVerOffset w h) hV,
      fun _ hr => mem_linePositions hV hr⟩⟩

theorem claim_C2_witness :
    ((vCols 2048 2048).length
        = (2048 - lineHorOffset 2048 2048 - 1) / lineHorOffset 2048 2048
      ∧ ∀ c ∈ vCols 2048 2048,
          lineHorOffset 2048 2048 ∣ c ∧ lineHorOffset 2048 2048 ≤ c
            ∧ c + lineHorOffset 2048 2048 < 2048)
    ∧ ((hRows 2048 2048).length
        = (2048 - lineVerOffset 2048 2048 - 1) / lineVerOffset 2048 2048
      ∧ ∀ r ∈ hRows 2048 2048,
          lineVerOffset 2048 2048 ∣ r ∧ lineVerOffset 2048 2048 ≤ r
            ∧ r + lineVerOffset 2048 2048 < 2048) :=
  claim_C2_amended 2048 2048 (by decide) (by decide)

/-- C5 (counterexample): at a concrete run with a crop polygon that
contains no polygonized region, compute_cutline aborts and produces no
cutline, but its warning is the generic "No polygons, cannot compute
cutline" of cutline.py line 157, not the claimed "no polygons in crop
area" message. -/
theorem claim_C5_counterexample :
    computeCutline (P := ℕ) 100 100 (some 10) (fun _ _ => false)
        (fun n : ℕ => (n : ℚ)) (fun l => l) [3] = .error noPolygonsMsg
    ∧ noPolygonsMsg ≠ "no polygons in crop area" := by
  constructor
  · rfl
  · decide

/-- C5 (amended): with a crop polygon only regions it fully contains are
retained, and the returned cutline polygon lies within the crop polygon
(given the geometric contracts that the boolean containment test is
sound and that every connected component of the union of polygons lying
inside the crop polygon lies inside it as well); if no region is fully
contained the computation aborts, producing no cutline, with the generic
warning "No polygons, cannot compute cutline". -/
theorem claim_C5_amended {P : Type} (w h : ℕ) (cp : P)
    (containsB : P → P → Bool) (area : P → ℚ)
    (componentsOf : List P → List P) (regions : List P)
    (Inside : P → P → Prop)
    (hsound : ∀ p, containsB cp p = true → Inside p cp)
    (hcontract : ∀ L : List P, (∀ p ∈ L, Inside p cp) →
        ∀ c ∈ componentsOf L, Inside c cp) :
    (∀ m, computeCutline w h (some cp) containsB area componentsOf regions
            = .ok m → Inside m cp)
    ∧ ((∀ p ∈ regions, containsB cp p = false)
        → ¬(lineHorOffset w h ≤ 2 ∨ lineVerOffset w h ≤ 2)
        → computeCutline w h (some cp) containsB area componentsOf regions
            = .error noPolygonsMsg) := by
  constructor
  · intro m hok
    unfold computeCutline at hok
    by_cases hg : lineHorOffset w h ≤ 2 ∨ lineVerOffset w h ≤ 2
    · rw [if_pos hg] at hok
      simp at hok
    · rw [if_neg hg] at hok
      dsimp only at hok
      by_cases he : (retainedPolygons (some cp) containsB regions).isEmpty
      · rw [if_pos he] at hok
        simp at hok
      · rw [if_neg he] at hok
        cases hcomps : componentsOf (retainedPolygons (some cp) containsB regions) with
        | nil =>
          rw [hcomps] at hok
          simp at hok
        | cons c cs =>
          rw [hcomps] at hok
          have hm : selectLargest area c cs = m := by injection hok
          have hmem : m ∈ componentsOf (retainedPolygons (some cp) containsB regions) := by
            rw [hcomps, ← hm]
            exact selectLargest_mem area c cs
          have hall : ∀ p ∈ retainedPolygons (some cp) containsB regions, Inside p cp := by
            intro p hp
            unfold retainedPolygons at hp
            exact hsound p (List.mem_filter.mp hp).2
          exact hcontract _ hall m hmem
  · intro hnone hguard
    unfold computeCutline
    rw [if_neg hguard]
    dsimp only
    have hempty : retainedPolygons (some cp) containsB regions = [] := by
      unfold retainedPolygons
      rw [List.filter_eq_nil_iff]
      intro a ha
      simp [hnone a ha]
    rw [hempty]
    rfl

theorem claim_C5_witness :
    computeCutline (P := ℕ) 200 200 (some 10) (fun _ _ => false)
        (fun n : ℕ => (n : ℚ)) (fun l => l) [3] = .error noPolygonsMsg :=
  (claim_C5_amended 200 200 10 (fun _ _ => false) (fun n : ℕ => (n : ℚ))
      (fun l => l) [3] (fun _ _ => True)
      (fun _ _ => trivial) (fun _ _ _ _ => trivial)).2
    (by decide) (by decide)

/-- C10: whenever the size guard passes (both offsets strictly greater
than 2), every padded routing endpoint has its shifted coordinate
strictly between 0 and dimension-1 and never a multiple of the line
offset, while its other coordinate spans 0 to dimension-1, so no
shortest-path search starts or ends out of the grid or on a rasterized
barrier cell of its own orientation (cutline.py lines 107-132). -/
theorem claim_C10_endpoints (w h : ℕ)
    (hH : 2 < lineHorOffset w h) (hV : 2 < lineVerOffset w h) :
    (∀ pq ∈ verticalPoints w h,
        pq.1.2 = 0 ∧ pq.2.2 = (h : ℤ) - 1 ∧ pq.1.1 = pq.2.1
          ∧ 0 < pq.1.1 ∧ pq.1.1 < (w : ℤ) - 1
          ∧ pq.1.1 % (lineHorOffset w h : ℤ) ≠ 0)
    ∧ (∀ pq ∈ horizontalPoints w h,
        pq.1.1 = 0 ∧ pq.2.1 = (w : ℤ) - 1 ∧ pq.1.2 = pq.2.2
          ∧ 0 < pq.1.2 ∧ pq.1.2 < (h : ℤ) - 1
          ∧ pq.1.2 % (lineVerOffset w h : ℤ) ≠ 0) := by
  constructor
  · intro pq hpq
    unfold verticalPoints at hpq
    have hcase : ∃ c ∈ vCols w h,
        pq = (((c : ℤ) - (padX w h : ℤ), 0),
              ((c : ℤ) - (padX w h : ℤ), (h : ℤ) - 1))
          ∨ pq = (((c : ℤ) + (padX w h : ℤ), 0),
              ((c : ℤ) + (padX w h : ℤ), (h : ℤ) - 1)) := by
      rcases List.mem_append.mp hpq with hmem | hmem
      · rcases List.mem_map.mp hmem with ⟨c, hc, hpq2⟩
        exact ⟨c, hc, Or.inl hpq2.symm⟩
      · rcases List.mem_map.mp hmem with ⟨c, hc, hpq2⟩
        exact ⟨c, mem_of_getLast_toList hc, Or.inr hpq2.symm⟩
    obtain ⟨c, hc, hor⟩ := hcase
    obtain ⟨hdvd, hle, hlt⟩ :=
      mem_linePositions (show 0 < lineHorOffset w h by omega) hc
    have hb := endpointX_bounds hH hdvd hle hlt
    rcases hor with hpq2 | hpq2 <;> subst hpq2
    · exact ⟨rfl, rfl, rfl, hb.1.1, hb.1.2.1, hb.1.2.2⟩
    · exact ⟨rfl, rfl, rfl, hb.2.1, hb.2.2.1, hb.2.2.2⟩
  · intro pq hpq
    unfold horizontalPoints at hpq
    have hcase : ∃ r ∈ hRows w h,
        pq = ((0, (r : ℤ) - (padY w h : ℤ)),
              ((w : ℤ) - 1, (r : ℤ) - (padY w h : ℤ)))
          ∨ pq = ((0, (r : ℤ) + (padY w h : ℤ)),
              ((w : ℤ) - 1, (r : ℤ) + (padY w h : ℤ))) := by
      rcases List.mem_append.mp hpq with hmem | hmem
      · rcases List.mem_map.mp hmem with ⟨r, hr, hpq2⟩
        exact ⟨r, hr, Or.inl hpq2.symm⟩
      · rcases List.mem_map.mp hmem with ⟨r, hr, hpq2⟩
        exact ⟨r, mem_of_getLast_toList hr, Or.inr hpq2.symm⟩
    obtain ⟨r, hr, hor⟩ := hcase
    obtain ⟨hdvd, hle, hlt⟩ :=
      mem_linePositions (show 0 < lineVerOffset w h by omega) hr
    have hb := endpointX_bounds hV hdvd hle hlt
    rcases hor with hpq2 | hpq2 <;> subst hpq2
    · exact ⟨rfl, rfl, rfl, hb.1.1, hb.1.2.1, hb.1.2.2⟩
    · exact ⟨rfl, rfl, rfl, hb.2.1, hb.2.2.1, hb.2.2.2⟩

theorem claim_C10_witness :
    (∀ pq ∈ verticalPoints 2048 2048,
        pq.1.2 = 0 ∧ pq.2.2 = (2048 : ℤ) - 1 ∧ pq.1.1 = pq.2.1
          ∧ 0 < pq.1.1 ∧ pq.1.1 < (2048 : ℤ) - 1
          ∧ pq.1.1 % (lineHorOffset 2048 2048 : ℤ) ≠ 0)
    ∧ (∀ pq ∈ horizontalPoints 2048 2048,
        pq.1.1 = 0 ∧ pq.2.1 = (2048 : ℤ) - 1 ∧ pq.1.2 = pq.2.2
          ∧ 0 < pq.1.2 ∧ pq.1.2 < (2048 : ℤ) - 1
          ∧ pq.1.2 % (lineVerOffset 2048 2048 : ℤ) ≠ 0) :=
  claim_C10_endpoints 2048 2048 (by decide) (by decide)

end QRasterMerge
